import Mathlib

/-!
Verification of the "Batch Rename & Export FBX" Blender add-on
(src/batch_rename_export_fbx.py) against its natural-language specification.

Strings are modelled as lists of characters (`PyStr`); the Python string
methods used by the add-on (`split`, `join`, `rstrip`, `isupper`, `isdigit`,
`startswith`, f-string `{i:03d}`) are embedded as executable functions on
`PyStr` restricted to the ASCII inputs the add-on manipulates.  Host (Blender)
state — scene objects, the selection list, the active object, the current
mode, directories created on disk, and the trace of calls to the host FBX
export primitive — is threaded explicitly through a `BState` record, and the
host environment (mode-switch availability, exporter availability, saved-file
status, injected `RuntimeError` failures of the exporter) is a separate `Env`
record, so that the operator's `invoke`/`execute` control flow becomes a pure
state-transformer.
-/

namespace BatchFBX

/-- Python strings as lists of characters. -/
abbrev PyStr := List Char

/-- Python `s.split(sep)` for a one-character separator: always returns a
non-empty list of tokens; empty tokens are kept (`"".split("_") == [""]`,
`"_".split("_") == ["", ""]`). -/
def pySplit (sep : Char) : PyStr → List PyStr
  | [] => [[]]
  | c :: rest =>
    if c = sep then [] :: pySplit sep rest
    else
      match pySplit sep rest with
      | [] => [[c]]
      | t :: ts => (c :: t) :: ts

/-- Python `sep.join(parts)` for a one-character separator. -/
def pyJoin (sep : Char) : List PyStr → PyStr
  | [] => []
  | [t] => t
  | t :: u :: ts => t ++ sep :: pyJoin sep (u :: ts)

/-- Python `s.rstrip(sep)` for a one-character strip set: removes every
trailing occurrence of `sep`. -/
def pyRstrip (sep : Char) (s : PyStr) : PyStr :=
  (List.dropWhile (fun c => c = sep) s.reverse).reverse

/-- Python `s.isupper()` (ASCII fragment): at least one cased character and
no lowercase character. -/
def pyIsupper (s : PyStr) : Bool :=
  s.any (fun c => c.isAlpha) && s.all (fun c => !c.isLower)

/-- Python `s.isdigit()` (ASCII fragment): non-empty and all digits. -/
def pyIsdigit (s : PyStr) : Bool :=
  !s.isEmpty && s.all (fun c => c.isDigit)

/-- Python `s.startswith(pre)`. -/
def pyStartsWith (pre s : PyStr) : Bool :=
  List.isPrefixOf pre s

/-- The character for a single decimal digit (`n` is taken modulo the call
sites' `% 10`). -/
def digitChar (n : Nat) : Char :=
  if n = 0 then '0' else if n = 1 then '1' else if n = 2 then '2'
  else if n = 3 then '3' else if n = 4 then '4' else if n = 5 then '5'
  else if n = 6 then '6' else if n = 7 then '7' else if n = 8 then '8'
  else '9'

/-- Decimal digits of `n` (empty for `0`), fuelled to avoid well-founded
recursion; the fuel `natDigits` passes is always sufficient. -/
def natDigitsAux : Nat → Nat → PyStr
  | 0, _ => []
  | f + 1, n => if n = 0 then [] else natDigitsAux f (n / 10) ++ [digitChar (n % 10)]

/-- Decimal digit string of `n` (empty for `0`). -/
def natDigits (n : Nat) : PyStr := natDigitsAux n n

/-- Python `f"{i:03d}"`: decimal rendering of `i`, zero-padded on the left to
at least three characters. -/
def fmt3 (n : Nat) : PyStr :=
  let d := if n = 0 then ['0'] else natDigits n
  List.replicate (3 - d.length) '0' ++ d

/-- The `if tokens and tokens[0].isupper(): tokens = tokens[1:]` step of
`Utilities.add_prefix` / `Utilities.get_selection._key`. -/
def dropUpperTok : List PyStr → List PyStr
  | [] => []
  | t :: ts => if pyIsupper t then ts else t :: ts

/-- The `if tokens and tokens[0].isdigit(): tokens = tokens[1:]` step of
`Utilities.add_prefix` / `Utilities.get_selection._key`. -/
def dropDigitTok : List PyStr → List PyStr
  | [] => []
  | t :: ts => if pyIsdigit t then ts else t :: ts

/-- Token cleaning shared by the rename rule and the sort key: split on the
separator, drop a leading all-uppercase token, then drop a leading all-digits
token. -/
def cleanToks (sep : Char) (name : PyStr) : List PyStr :=
  dropDigitTok (dropUpperTok (pySplit sep name))

/-- Body of the loop of `Utilities.add_prefix` for the object at 1-based
position `i`: `p` is the prefix with trailing separators already stripped. -/
def newNameAt (sep : Char) (p : PyStr) (addIndex : Bool) (i : Nat) (name : PyStr) : PyStr :=
  let base := pyJoin sep (cleanToks sep name)
  pyJoin sep ([p] ++ (if addIndex then [fmt3 i] else []) ++ (if base = [] then [] else [base]))

/-- The loop of `Utilities.add_prefix`: returns the renamed names together
with the `count` the Python function accumulates. -/
def addPfxGo (sep : Char) (p : PyStr) (addIndex : Bool) : Nat → List PyStr → List PyStr × Nat
  | _, [] => ([], 0)
  | i, n :: ns =>
    let r := addPfxGo sep p addIndex (i + 1) ns
    (newNameAt sep p addIndex i n :: r.1, r.2 + 1)

/-- `Utilities.add_prefix` as a function on the list of object names: strips
trailing separators from the prefix, renames each object (1-based enumerate)
and returns the new names with the returned count. -/
def add_prefixFn (sep : Char) (pfx : PyStr) (addIndex : Bool) (names : List PyStr) : List PyStr × Nat :=
  addPfxGo sep (pyRstrip sep pfx) addIndex 1 names

/-- Python string comparison (`<` on code points, lexicographic), as used by
`sorted(..., key=...)`. -/
def pyStrLe : PyStr → PyStr → Bool
  | [], _ => true
  | _ :: _, [] => false
  | a :: x, b :: y => if a = b then pyStrLe x y else decide (a.toNat < b.toNat)

/-- The `_key` closure of `Utilities.get_selection`: cleaned base name, or
the raw name when the cleaned join is empty (`"_".join(tokens) or o.name`). -/
def keyOf (name : PyStr) : PyStr :=
  let j := pyJoin '_' (cleanToks '_' name)
  if j = [] then name else j

/-- A scene object: a host identity (stable across renames) plus its name. -/
structure Obj where
  oid : Nat
  name : PyStr
deriving DecidableEq

/-- Comparison used by `sorted(sel, key=_key)`. -/
def objLe (a b : Obj) : Bool :=
  pyStrLe (keyOf a.name) (keyOf b.name)

/-- Stable insertion of `a` into `l` before the first element it is `le` to;
together with `sortLe` this is the unique stable sort determined by `le`,
which is what Python's (stable) `sorted` computes. -/
def insertLe {α : Type} (le : α → α → Bool) (a : α) : List α → List α
  | [] => [a]
  | b :: l => if le a b then a :: b :: l else b :: insertLe le a l

/-- Stable sort by `le` (models Python `sorted`). -/
def sortLe {α : Type} (le : α → α → Bool) : List α → List α
  | [] => []
  | a :: l => insertLe le a (sortLe le l)

/-- `context.selected_objects`: the selected ids resolved against the scene
objects, in the order the host reports them. -/
def selectedObjs (objs : List Obj) (selected : List Nat) : List Obj :=
  selected.filterMap (fun i => objs.find? (fun o => o.oid = i))

/-- `Utilities.get_selection`: the selection sorted by the cleaned-name key. -/
def get_selectionFn (objs : List Obj) (selected : List Nat) : List Obj :=
  sortLe objLe (selectedObjs objs selected)

/-- `ENGINE_AXIS_PRESETS.get(axis_key, ENGINE_AXIS_PRESETS["BLENDER"])`:
the `(axis_forward, axis_up)` pair used by `Utilities.export_fbx`. -/
def enginePreset (k : PyStr) : PyStr × PyStr :=
  if k = "BLENDER".data then ("-Y".data, "Z".data)
  else if k = "MAYA".data then ("Z".data, "Y".data)
  else if k = "UNITY".data then ("-Z".data, "Y".data)
  else if k = "UNREAL".data then ("X".data, "Z".data)
  else ("-Y".data, "Z".data)

/-- `bpy.path.abspath`: a leading `//` is resolved against the directory of
the current .blend file; other paths are returned unchanged. -/
def bpyAbspath (blendDir : PyStr) (p : PyStr) : PyStr :=
  if pyStartsWith "//".data p then blendDir ++ p.drop 2 else p

/-- `os.path.join(a, b)` for the shapes the add-on produces. -/
def pyPathJoin (a b : PyStr) : PyStr :=
  if pyStartsWith ['/'] b then b
  else if a = [] then b
  else if a.getLast? = some '/' then a ++ b
  else a ++ '/' :: b

/-- `Utilities.get_export_dir` as a filesystem transformer: `fs` is the list
of directories created so far (`os.makedirs` appends to it), and the absolute
export directory is returned. -/
def get_export_dirS (blendDir : PyStr) (fs : List PyStr) (p : PyStr) : List PyStr × PyStr :=
  let raw := if p = [] then "//".data else p
  let a := bpyAbspath blendDir raw
  (fs ++ [a], a)

/-- One call to the host FBX export primitive (`bpy.ops.export_scene.fbx`
with `use_selection=True`): the output path, the ids selected at call time,
and the axis pair passed. -/
structure ExportCall where
  filepath : PyStr
  selection : List Nat
  axis_forward : PyStr
  axis_up : PyStr
deriving DecidableEq

/-- Host state: scene objects, selection (ids, host order), active object,
whether the context is in OBJECT mode, directories created on disk, and the
trace of successful export calls. -/
structure BState where
  objs : List Obj
  selected : List Nat
  active : Option Nat
  objectMode : Bool
  madeDirs : List PyStr
  calls : List ExportCall
deriving DecidableEq

/-- The panel configuration (the scene properties the operator reads). -/
structure Scene where
  ta_pfx : PyStr
  ta_add_index : Bool
  ta_per_object : Bool
  ta_export_path : PyStr
  ta_export_filename : PyStr
  ta_axis_preset : PyStr
deriving DecidableEq

/-- Host environment: whether `bpy.ops.object.mode_set` can succeed, whether
the FBX exporter is registered, `bpy.data.filepath`, the blend directory used
by `bpy.path.abspath`, and which export call (0-based, counted within one
`execute`) raises `RuntimeError` (none raise when `failAt = none`). -/
structure Env where
  modeSwitchOk : Bool
  hasFbx : Bool
  blendFilepath : PyStr
  blendDir : PyStr
  failAt : Option Nat
deriving DecidableEq

/-- Operator return values. -/
inductive OpResult
  | FINISHED
  | CANCELLED
deriving DecidableEq

/-- `o.select_set(True)`: adds an id to the selection. -/
def selAdd (sel : List Nat) (i : Nat) : List Nat :=
  if i ∈ sel then sel else sel ++ [i]

/-- Assigning `obj.name` for the object with id `i`. -/
def setName (objs : List Obj) (i : Nat) (n : PyStr) : List Obj :=
  objs.map (fun o => if o.oid = i then { o with name := n } else o)

/-- The scene-level effect of the `add_prefix` loop: rename each target id to
its new name, in order. -/
def renameObjs : List Obj → List Nat → List PyStr → List Obj
  | objs, [], _ => objs
  | objs, _, [] => objs
  | objs, i :: rest, n :: ns => renameObjs (setName objs i n) rest ns

/-- `Utilities.ensure_object_mode`: succeeds immediately in OBJECT mode, else
succeeds exactly when the host lets `mode_set` switch to OBJECT mode. -/
def ensureObjectMode (env : Env) (st : BState) : Bool × BState :=
  if st.objectMode then (true, st)
  else if env.modeSwitchOk then (true, { st with objectMode := true })
  else (false, st)

/-- `Utilities.export_fbx`: the call record sent to the host exporter, with
the axis pair looked up from the presets. -/
def exportOne (axisKey fp : PyStr) (sel : List Nat) : ExportCall :=
  ⟨fp, sel, (enginePreset axisKey).1, (enginePreset axisKey).2⟩

/-- The per-object export loop inside the `SelectionGuard` block: `k` counts
the export calls already made in this `execute`; `pS`/`pA` are the selection
and active object saved by the guard's constructor, restored on normal exit
and when a call raises.  `SelectionGuard.set` only ever selects (it never
deselects), so the selection accumulates across iterations. -/
def perObjLoop (env : Env) (axisKey outDir : PyStr) (pS : List Nat) (pA : Option Nat) :
    Nat → List Obj → BState → Bool × BState
  | _, [], st => (true, { st with selected := pS, active := pA })
  | k, o :: os, st =>
    let st1 := { st with selected := selAdd st.selected o.oid, active := some o.oid }
    let fp := pyPathJoin outDir (o.name ++ ".fbx".data)
    if env.failAt = some k then
      (false, { st1 with selected := pS, active := pA })
    else
      perObjLoop env axisKey outDir pS pA (k + 1) os
        { st1 with calls := st1.calls ++ [exportOne axisKey fp st1.selected] }

/-- The list of export calls the per-object loop makes when no call fails,
starting from accumulated selection `acc`. -/
def perObjCalls (axisKey outDir : PyStr) : List Nat → List Obj → List ExportCall
  | _, [] => []
  | acc, o :: os =>
    let s := selAdd acc o.oid
    exportOne axisKey (pyPathJoin outDir (o.name ++ ".fbx".data)) s ::
      perObjCalls axisKey outDir s os

/-- The `SelectionGuard` block of `execute` (renames already applied): enter
deselects everything, the per-object or batch export calls are made, and the
guard's `__exit__` restores `st3`'s selection and active object both on
normal exit and when a call raises `RuntimeError`. -/
def exportPhase (env : Env) (scene : Scene) (outDir : PyStr) (targets2 : List Obj)
    (st3 : BState) : OpResult × BState :=
  let st4 := { st3 with selected := ([] : List Nat) }
  if scene.ta_per_object then
    let r := perObjLoop env scene.ta_axis_preset outDir st3.selected st3.active 0 targets2 st4
    (if r.1 then .FINISHED else .CANCELLED, r.2)
  else
    let selB := targets2.foldl (fun s o => selAdd s o.oid) ([] : List Nat)
    let actB := match targets2 with | [] => st4.active | o :: _ => some o.oid
    let st5 := { st4 with selected := selB, active := actB }
    let fp := pyPathJoin outDir
      (if scene.ta_export_filename = [] then "Export.fbx".data else scene.ta_export_filename)
    if env.failAt = some 0 then
      (.CANCELLED, { st5 with selected := st3.selected, active := st3.active })
    else
      (.FINISHED,
        { st5 with
            selected := st3.selected
            active := st3.active
            calls := st5.calls ++ [exportOne scene.ta_axis_preset fp st5.selected] })

/-- `TA_OT_BatchRenameExportFBX.execute`. -/
def execute (env : Env) (scene : Scene) (st : BState) : OpResult × BState :=
  let em := ensureObjectMode env st
  let st1 := em.2
  if em.1 = false then (.CANCELLED, st1)
  else if env.hasFbx = false then (.CANCELLED, st1)
  else if pyStartsWith "//".data scene.ta_export_path && env.blendFilepath.isEmpty then
    (.CANCELLED, st1)
  else
    let gd := get_export_dirS env.blendDir st1.madeDirs scene.ta_export_path
    let st2 := { st1 with madeDirs := gd.1 }
    let outDir := gd.2
    let targets := get_selectionFn st2.objs st2.selected
    if targets = [] then (.CANCELLED, st2)
    else
      let newNames := (add_prefixFn '_' scene.ta_pfx scene.ta_add_index (targets.map Obj.name)).1
      let targets2 := List.zipWith (fun o n => { o with name := n }) targets newNames
      let st3 := { st2 with objs := renameObjs st2.objs (targets.map Obj.oid) newNames }
      exportPhase env scene outDir targets2 st3

/-- `TA_OT_BatchRenameExportFBX.invoke`: `none` models `{'CANCELLED'}` on an
empty selection, otherwise the file count `N` shown in the confirm dialog. -/
def invoke (scene : Scene) (st : BState) : Option Nat :=
  let targets := get_selectionFn st.objs st.selected
  if targets = [] then none
  else some (if scene.ta_per_object then targets.length else 1)

/-- `Utilities.add_prefix` acting on a list of objects (the code mutates
`obj.name` in place; here the updated objects are returned with the count). -/
def add_prefixS (pfx : PyStr) (addIndex : Bool) (objects : List Obj) : List Obj × Nat :=
  let r := add_prefixFn '_' pfx addIndex (objects.map Obj.name)
  (List.zipWith (fun o n => { o with name := n }) objects r.1, r.2)

/-- The selection-sort-plus-rename pipeline: the names produced by running
`Utilities.get_selection` and then `Utilities.add_prefix` on a selection. -/
def renamePipeline (pfx : PyStr) (addIndex : Bool) (objs : List Obj) (selected : List Nat) :
    List PyStr :=
  (add_prefixFn '_' pfx addIndex ((get_selectionFn objs selected).map Obj.name)).1

/-- The prefix shape of claim C10: after stripping trailing separators the
prefix is a single token (no `'_'`) accepted by the uppercase check. -/
def pfxShape (pfx : PyStr) : Bool :=
  (pyRstrip '_' pfx).all (fun c => c != '_') && pyIsupper (pyRstrip '_' pfx)

/-- The rename rule as claim C1 words it, for the object at 1-based position
`i` of the input list: split the old name on `'_'`, drop the first token if
it is all-uppercase, then drop the (new) first token if it consists only of
digits, and join with `'_'` the prefix with trailing `'_'` stripped, then
(when the index toggle is on) the 3-digit zero-padded index, then the
remaining base name (omitted when empty). -/
def claimRename (pfx : PyStr) (addIndex : Bool) (i : Nat) (old : PyStr) : PyStr :=
  let toks1 :=
    match pySplit '_' old with
    | [] => []
    | t :: ts => if pyIsupper t then ts else t :: ts
  let toks2 :=
    match toks1 with
    | [] => []
    | t :: ts => if pyIsdigit t then ts else t :: ts
  let base := pyJoin '_' toks2
  pyJoin '_' ([pyRstrip '_' pfx] ++ (if addIndex then [fmt3 i] else []) ++
    (if base = [] then [] else [base]))

/-- Claim C1's rename rule applied along a list, `i` the 1-based position of
the first element. -/
def claimRenameAll (pfx : PyStr) (addIndex : Bool) : Nat → List PyStr → List PyStr
  | _, [] => []
  | i, n :: ns => claimRename pfx addIndex i n :: claimRenameAll pfx addIndex (i + 1) ns

/-- The state `execute` ends in once the four precondition checks have
passed: renames applied, selection and active object restored by the
`SelectionGuard`, the export directory created, and `nw` the export calls
that completed. -/
def finalState (env : Env) (scene : Scene) (st : BState) (nw : List ExportCall) : BState :=
  { objs := renameObjs st.objs ((get_selectionFn st.objs st.selected).map Obj.oid)
      (add_prefixFn '_' scene.ta_pfx scene.ta_add_index
        ((get_selectionFn st.objs st.selected).map Obj.name)).1
    selected := st.selected
    active := st.active
    objectMode := ((ensureObjectMode env st).2).objectMode
    madeDirs := st.madeDirs ++ [(get_export_dirS env.blendDir st.madeDirs scene.ta_export_path).2]
    calls := st.calls ++ nw }

/-- The sequence of export calls `exportPhase` plans (and makes, when no
call raises). -/
def phasePlan (scene : Scene) (outDir : PyStr) (targets2 : List Obj) :
    List ExportCall :=
  if scene.ta_per_object then perObjCalls scene.ta_axis_preset outDir [] targets2
  else [exportOne scene.ta_axis_preset
    (pyPathJoin outDir
      (if scene.ta_export_filename = [] then "Export.fbx".data else scene.ta_export_filename))
    (targets2.foldl (fun s o => selAdd s o.oid) ([] : List Nat))]

/-- The sequence of export calls one `execute` run plans (and makes, when no
call raises) after the precondition checks pass. -/
def exportPlan (env : Env) (scene : Scene) (st : BState) : List ExportCall :=
  phasePlan scene (get_export_dirS env.blendDir st.madeDirs scene.ta_export_path).2
    (List.zipWith (fun o n => { o with name := n }) (get_selectionFn st.objs st.selected)
      (add_prefixFn '_' scene.ta_pfx scene.ta_add_index
        ((get_selectionFn st.objs st.selected).map Obj.name)).1)

/-! ### Lemmas about the string primitives -/

theorem pySplit_ne_nil (sep : Char) (l : PyStr) : pySplit sep l ≠ [] := by
  induction l with
  | nil => simp [pySplit]
  | cons c rest ih =>
    simp only [pySplit]
    split
    · simp
    · split
      · simp
      · simp

theorem mem_pySplit_no_sep (sep : Char) (l : PyStr) :
    ∀ t ∈ pySplit sep l, sep ∉ t := by
  induction l with
  | nil =>
    intro t ht
    simp [pySplit] at ht
    simp [ht]
  | cons c rest ih =>
    intro t ht
    simp only [pySplit] at ht
    by_cases hc : c = sep
    · rw [if_pos hc] at ht
      rcases List.mem_cons.mp ht with h | h
      · simp [h]
      · exact ih t h
    · rw [if_neg hc] at ht
      rcases hsp : pySplit sep rest with _ | ⟨u, us⟩
      · exact absurd hsp (pySplit_ne_nil sep rest)
      · rw [hsp] at ht
        rcases List.mem_cons.mp ht with h | h
        · subst h
          intro hmem
          rcases List.mem_cons.mp hmem with h | h
          · exact hc h.symm
          · exact ih u (hsp ▸ List.mem_cons_self u us) h
        · exact ih t (hsp ▸ List.mem_cons_of_mem u h)

theorem pySplit_noSep (sep : Char) (l : PyStr) (h : sep ∉ l) : pySplit sep l = [l] := by
  induction l with
  | nil => rfl
  | cons c rest ih =>
    have hc : ¬ c = sep := fun hc => h (hc ▸ List.mem_cons_self c rest)
    have hr : sep ∉ rest := fun hm => h (List.mem_cons_of_mem c hm)
    simp only [pySplit, if_neg hc, ih hr]

theorem pySplit_append (sep : Char) (x y : PyStr) (h : sep ∉ x) :
    pySplit sep (x ++ sep :: y) = x :: pySplit sep y := by
  induction x with
  | nil => simp [pySplit]
  | cons c x' ih =>
    have hc : ¬ c = sep := fun hc => h (hc ▸ List.mem_cons_self c x')
    have hx : sep ∉ x' := fun hm => h (List.mem_cons_of_mem c hm)
    show pySplit sep (c :: (x' ++ sep :: y)) = (c :: x') :: pySplit sep y
    simp only [pySplit, if_neg hc, List.append_eq]
    rw [ih hx]

theorem pyJoin_cons_cons (sep : Char) (t u : PyStr) (ts : List PyStr) :
    pyJoin sep (t :: u :: ts) = t ++ sep :: pyJoin sep (u :: ts) := rfl

theorem pySplit_pyJoin (sep : Char) :
    ∀ ts : List PyStr, ts ≠ [] → (∀ t ∈ ts, sep ∉ t) →
      pySplit sep (pyJoin sep ts) = ts := by
  intro ts
  induction ts with
  | nil => intro h; exact absurd rfl h
  | cons t ts ih =>
    intro _ hall
    cases ts with
    | nil =>
      simp only [pyJoin]
      exact pySplit_noSep sep t (hall t (List.mem_cons_self t []))
    | cons u us =>
      rw [pyJoin_cons_cons, pySplit_append sep t _ (hall t (List.mem_cons_self t _)),
        ih (by simp) (fun v hv => hall v (List.mem_cons_of_mem t hv))]

theorem dropUpperTok_subset : ∀ (l : List PyStr) (t : PyStr), t ∈ dropUpperTok l → t ∈ l := by
  intro l t h
  cases l with
  | nil => simp [dropUpperTok] at h
  | cons u us =>
    simp only [dropUpperTok] at h
    split at h
    · exact List.mem_cons_of_mem u h
    · exact h

theorem dropDigitTok_subset : ∀ (l : List PyStr) (t : PyStr), t ∈ dropDigitTok l → t ∈ l := by
  intro l t h
  cases l with
  | nil => simp [dropDigitTok] at h
  | cons u us =>
    simp only [dropDigitTok] at h
    split at h
    · exact List.mem_cons_of_mem u h
    · exact h

theorem cleanToks_no_sep (sep : Char) (n : PyStr) :
    ∀ t ∈ cleanToks sep n, sep ∉ t := by
  intro t ht
  exact mem_pySplit_no_sep sep n t (dropUpperTok_subset _ t (dropDigitTok_subset _ t ht))

/-! ### Lemmas about the 3-digit index format -/

theorem digitChar_mem (n : Nat) : digitChar n ∈ "0123456789".data := by
  unfold digitChar
  repeat' split
  all_goals decide

theorem natDigitsAux_chars : ∀ (f n : Nat), ∀ c ∈ natDigitsAux f n, c ∈ "0123456789".data := by
  intro f
  induction f with
  | zero => intro n c hc; simp [natDigitsAux] at hc
  | succ f ih =>
    intro n c hc
    simp only [natDigitsAux] at hc
    split at hc
    · simp at hc
    · rcases List.mem_append.mp hc with h | h
      · exact ih _ c h
      · simp at h
        subst h
        simpa using digitChar_mem (n % 10)

theorem fmt3_chars (n : Nat) : ∀ c ∈ fmt3 n, c ∈ "0123456789".data := by
  intro c hc
  simp only [fmt3] at hc
  rcases List.mem_append.mp hc with h | h
  · have := List.eq_of_mem_replicate h
    simp [this]
  · split at h
    · simp at h; simp [h]
    · exact natDigitsAux_chars n n c h

theorem fmt3_digits (n : Nat) : ∀ c ∈ fmt3 n, c.isDigit = true := by
  intro c hc
  have h := fmt3_chars n c hc
  fin_cases h <;> decide

theorem fmt3_ne_nil (n : Nat) : fmt3 n ≠ [] := by
  simp only [fmt3]
  intro h
  rcases List.append_eq_nil.mp h with ⟨_, h2⟩
  split at h2
  · simp at h2
  · next hn =>
    rcases Nat.exists_eq_succ_of_ne_zero hn with ⟨m, rfl⟩
    simp only [natDigits, natDigitsAux, if_neg (Nat.succ_ne_zero m)] at h2
    exact absurd h2 (by simp)

theorem fmt3_isdigit (n : Nat) : pyIsdigit (fmt3 n) = true := by
  simp only [pyIsdigit, Bool.and_eq_true, List.all_eq_true]
  constructor
  · simpa [List.isEmpty_iff] using fmt3_ne_nil n
  · exact fun c hc => fmt3_digits n c hc

theorem fmt3_no_sep (n : Nat) : '_' ∉ fmt3 n := by
  intro h
  exact absurd (fmt3_chars n '_' h) (by decide)

theorem fmt3_not_upper (n : Nat) : pyIsupper (fmt3 n) = false := by
  simp only [pyIsupper, Bool.and_eq_false_iff]
  left
  simp only [List.any_eq_false]
  intro c hc
  have h := fmt3_chars n c hc
  fin_cases h <;> decide

/-! ### Lemmas about the stable sort and the key comparison -/

theorem mem_insertLe {α : Type} (le : α → α → Bool) (a x : α) :
    ∀ l : List α, x ∈ insertLe le a l ↔ x = a ∨ x ∈ l := by
  intro l
  induction l with
  | nil => simp [insertLe]
  | cons b l ih =>
    simp only [insertLe]
    split
    · simp [List.mem_cons]
    · simp only [List.mem_cons, ih]
      tauto

theorem perm_insertLe {α : Type} (le : α → α → Bool) (a : α) :
    ∀ l : List α, (insertLe le a l).Perm (a :: l) := by
  intro l
  induction l with
  | nil => simp [insertLe]
  | cons b l ih =>
    simp only [insertLe]
    split
    · exact List.Perm.refl _
    · exact (ih.cons b).trans (List.Perm.swap a b l)

theorem perm_sortLe {α : Type} (le : α → α → Bool) :
    ∀ l : List α, (sortLe le l).Perm l := by
  intro l
  induction l with
  | nil => simp [sortLe]
  | cons a l ih =>
    exact (perm_insertLe le a (sortLe le l)).trans (ih.cons a)

theorem sortLe_length {α : Type} (le : α → α → Bool) (l : List α) :
    (sortLe le l).length = l.length :=
  (perm_sortLe le l).length_eq

theorem pairwise_insertLe {α : Type} (le : α → α → Bool)
    (htot : ∀ a b, le a b = true ∨ le b a = true)
    (htr : ∀ a b c, le a b = true → le b c = true → le a c = true) (a : α) :
    ∀ l : List α, l.Pairwise (fun x y => le x y = true) →
      (insertLe le a l).Pairwise (fun x y => le x y = true) := by
  intro l
  induction l with
  | nil => intro _; simp [insertLe]
  | cons b l ih =>
    intro h
    rcases List.pairwise_cons.mp h with ⟨hb, hl⟩
    simp only [insertLe]
    split
    · next hab =>
      refine List.pairwise_cons.mpr ⟨?_, h⟩
      intro x hx
      rcases List.mem_cons.mp hx with rfl | hx
      · exact hab
      · exact htr a b x hab (hb x hx)
    · next hab =>
      refine List.pairwise_cons.mpr ⟨?_, ih hl⟩
      intro x hx
      rcases (mem_insertLe le a x l).mp hx with rfl | hx
      · rcases htot x b with h' | h'
        · exact absurd h' hab
        · exact h'
      · exact hb x hx

theorem pairwise_sortLe {α : Type} (le : α → α → Bool)
    (htot : ∀ a b, le a b = true ∨ le b a = true)
    (htr : ∀ a b c, le a b = true → le b c = true → le a c = true) :
    ∀ l : List α, (sortLe le l).Pairwise (fun x y => le x y = true) := by
  intro l
  induction l with
  | nil => simp [sortLe]
  | cons a l ih => exact pairwise_insertLe le htot htr a (sortLe le l) ih

theorem sorted_perm_eq {α : Type} (le : α → α → Bool) :
    ∀ l1 l2 : List α, l1.Perm l2 →
      l1.Pairwise (fun x y => le x y = true) →
      l2.Pairwise (fun x y => le x y = true) →
      (∀ a ∈ l1, ∀ b ∈ l1, le a b = true → le b a = true → a = b) →
      l1 = l2 := by
  intro l1
  induction l1 with
  | nil =>
    intro l2 hp _ _ _
    exact (hp.nil_eq).symm ▸ rfl
  | cons a t1 ih =>
    intro l2 hp h1 h2 hanti
    cases l2 with
    | nil => exact absurd hp.symm.nil_eq (by simp)
    | cons b t2 =>
      have hab : a = b := by
        by_contra hne
        have hbmem : b ∈ a :: t1 := hp.symm.subset (List.mem_cons_self b t2)
        have hb1 : b ∈ t1 := by
          rcases List.mem_cons.mp hbmem with h | h
          · exact absurd h.symm hne
          · exact h
        have hamem : a ∈ b :: t2 := hp.subset (List.mem_cons_self a t1)
        have ha2 : a ∈ t2 := by
          rcases List.mem_cons.mp hamem with h | h
          · exact absurd h hne
          · exact h
        have hle1 : le a b = true := (List.pairwise_cons.mp h1).1 b hb1
        have hle2 : le b a = true := (List.pairwise_cons.mp h2).1 a ha2
        exact hne (hanti a (List.mem_cons_self a t1) b hbmem hle1 hle2)
      subst hab
      have hp' : t1.Perm t2 := hp.cons_inv
      have heq : t1 = t2 := by
        refine ih t2 hp' (List.pairwise_cons.mp h1).2 (List.pairwise_cons.mp h2).2 ?_
        intro x hx y hy hxy hyx
        exact hanti x (List.mem_cons_of_mem a hx) y (List.mem_cons_of_mem a hy) hxy hyx
      rw [heq]

theorem charToNat_inj (a b : Char) (h : a.toNat = b.toNat) : a = b :=
  Char.ext (UInt32.ext_iff.mpr h)

theorem pyStrLe_total : ∀ x y : PyStr, pyStrLe x y = true ∨ pyStrLe y x = true := by
  intro x
  induction x with
  | nil => intro y; left; cases y <;> rfl
  | cons a x' ih =>
    intro y
    cases y with
    | nil => right; rfl
    | cons b y' =>
      simp only [pyStrLe]
      by_cases hab : a = b
      · subst hab
        simp only [if_pos rfl]
        exact ih y'
      · have hba : ¬ b = a := fun h => hab h.symm
        rw [if_neg hab, if_neg hba]
        have hne : a.toNat ≠ b.toNat := fun h => hab (charToNat_inj a b h)
        rcases Nat.lt_or_ge a.toNat b.toNat with h | h
        · left; simpa using h
        · right
          have : b.toNat < a.toNat := Nat.lt_of_le_of_ne h (fun hh => hne hh.symm)
          simpa using this

theorem pyStrLe_trans : ∀ x y z : PyStr,
    pyStrLe x y = true → pyStrLe y z = true → pyStrLe x z = true := by
  intro x
  induction x with
  | nil => intro y z _ _; rfl
  | cons a x' ih =>
    intro y z hxy hyz
    cases y with
    | nil => simp [pyStrLe] at hxy
    | cons b y' =>
      cases z with
      | nil => simp [pyStrLe] at hyz
      | cons c z' =>
        simp only [pyStrLe] at hxy hyz ⊢
        by_cases hab : a = b
        · subst hab
          rw [if_pos rfl] at hxy
          by_cases hbc : a = c
          · subst hbc
            rw [if_pos rfl] at hyz ⊢
            exact ih y' z' hxy hyz
          · rw [if_neg hbc] at hyz ⊢
            exact hyz
        · rw [if_neg hab] at hxy
          by_cases hbc : b = c
          · subst hbc
            rw [if_neg hab]
            exact hxy
          · rw [if_neg hbc] at hyz
            by_cases hac : a = c
            · subst hac
              simp only [decide_eq_true_eq] at hxy hyz
              omega
            · rw [if_neg hac]
              simp only [decide_eq_true_eq] at hxy hyz ⊢
              omega

theorem pyStrLe_antisymm : ∀ x y : PyStr,
    pyStrLe x y = true → pyStrLe y x = true → x = y := by
  intro x
  induction x with
  | nil =>
    intro y _ hyx
    cases y with
    | nil => rfl
    | cons b y' => simp [pyStrLe] at hyx
  | cons a x' ih =>
    intro y hxy hyx
    cases y with
    | nil => simp [pyStrLe] at hxy
    | cons b y' =>
      simp only [pyStrLe] at hxy hyx
      by_cases hab : a = b
      · subst hab
        rw [if_pos rfl] at hxy hyx
        rw [ih y' hxy hyx]
      · have hba : ¬ b = a := fun h => hab h.symm
        rw [if_neg hab] at hxy
        rw [if_neg hba] at hyx
        simp only [decide_eq_true_eq] at hxy hyx
        omega

theorem objLe_total : ∀ a b : Obj, objLe a b = true ∨ objLe b a = true := by
  intro a b
  exact pyStrLe_total (keyOf a.name) (keyOf b.name)

theorem objLe_trans : ∀ a b c : Obj, objLe a b = true → objLe b c = true → objLe a c = true := by
  intro a b c hab hbc
  exact pyStrLe_trans _ _ _ hab hbc

theorem objLe_antisymm_key (a b : Obj) (h1 : objLe a b = true) (h2 : objLe b a = true) :
    keyOf a.name = keyOf b.name :=
  pyStrLe_antisymm _ _ h1 h2

/-! ### Lemmas about the rename rule -/

theorem newNameAt_claim (pfx : PyStr) (ai : Bool) (i : Nat) (n : PyStr) :
    newNameAt '_' (pyRstrip '_' pfx) ai i n = claimRename pfx ai i n := by
  unfold newNameAt claimRename cleanToks
  cases hsp : pySplit '_' n with
  | nil => simp [dropUpperTok, dropDigitTok]
  | cons t ts =>
    by_cases hu : pyIsupper t = true
    · simp only [dropUpperTok, if_pos hu]
      cases ts with
      | nil => simp [dropDigitTok]
      | cons u us =>
        by_cases hd : pyIsdigit u = true
        · simp [dropDigitTok, hd]
        · simp [dropDigitTok, hd]
    · simp only [dropUpperTok, if_neg hu, Bool.not_eq_true]
      by_cases hd : pyIsdigit t = true
      · simp [dropDigitTok, hd, hu]
      · simp [dropDigitTok, hd, hu]

theorem addPfxGo_claim (pfx : PyStr) (ai : Bool) :
    ∀ (ns : List PyStr) (i : Nat),
      (addPfxGo '_' (pyRstrip '_' pfx) ai i ns).1 = claimRenameAll pfx ai i ns ∧
      (addPfxGo '_' (pyRstrip '_' pfx) ai i ns).2 = ns.length := by
  intro ns
  induction ns with
  | nil => intro i; exact ⟨rfl, rfl⟩
  | cons n ns ih =>
    intro i
    constructor
    · simp [addPfxGo, claimRenameAll, newNameAt_claim, (ih (i + 1)).1]
    · simp [addPfxGo, (ih (i + 1)).2]

theorem addPfxGo_fst_length (sep : Char) (p : PyStr) (ai : Bool) :
    ∀ (ns : List PyStr) (i : Nat), ((addPfxGo sep p ai i ns).1).length = ns.length := by
  intro ns
  induction ns with
  | nil => intro i; rfl
  | cons n ns ih => intro i; simp [addPfxGo, ih (i + 1)]

theorem addPfxGo_snd (sep : Char) (p : PyStr) (ai : Bool) :
    ∀ (ns : List PyStr) (i : Nat), (addPfxGo sep p ai i ns).2 = ns.length := by
  intro ns
  induction ns with
  | nil => intro i; rfl
  | cons n ns ih => intro i; simp [addPfxGo, ih (i + 1)]

theorem add_prefixFn_fst_length (sep : Char) (pfx : PyStr) (ai : Bool) (ns : List PyStr) :
    ((add_prefixFn sep pfx ai ns).1).length = ns.length :=
  addPfxGo_fst_length sep (pyRstrip sep pfx) ai ns 1

theorem add_prefixFn_snd (sep : Char) (pfx : PyStr) (ai : Bool) (ns : List PyStr) :
    (add_prefixFn sep pfx ai ns).2 = ns.length :=
  addPfxGo_snd sep (pyRstrip sep pfx) ai ns 1

theorem cleanToks_roundtrip_empty (p : PyStr) (hns : '_' ∉ p) (hup : pyIsupper p = true)
    (i : Nat) : cleanToks '_' (p ++ '_' :: fmt3 i) = [] := by
  unfold cleanToks
  rw [pySplit_append '_' p _ hns, pySplit_noSep '_' (fmt3 i) (fmt3_no_sep i)]
  simp [dropUpperTok, hup, dropDigitTok, fmt3_isdigit i]

theorem cleanToks_roundtrip (p : PyStr) (hns : '_' ∉ p) (hup : pyIsupper p = true)
    (i : Nat) (ts : List PyStr) (htsne : ts ≠ []) (htoks : ∀ t ∈ ts, '_' ∉ t) :
    cleanToks '_' (p ++ '_' :: (fmt3 i ++ '_' :: pyJoin '_' ts)) = ts := by
  unfold cleanToks
  rw [pySplit_append '_' p _ hns, pySplit_append '_' (fmt3 i) _ (fmt3_no_sep i),
    pySplit_pyJoin '_' ts htsne htoks]
  simp [dropUpperTok, hup, dropDigitTok, fmt3_isdigit i]

theorem newNameAt_idem (p : PyStr) (hns : '_' ∉ p) (hup : pyIsupper p = true)
    (i : Nat) (n : PyStr) :
    newNameAt '_' p true i (newNameAt '_' p true i n) = newNameAt '_' p true i n := by
  by_cases hb : pyJoin '_' (cleanToks '_' n) = []
  · have hname : newNameAt '_' p true i n = p ++ '_' :: fmt3 i := by
      simp [newNameAt, hb, pyJoin]
    rw [hname]
    simp only [newNameAt, cleanToks_roundtrip_empty p hns hup i]
    simp [pyJoin]
  · have htsne : cleanToks '_' n ≠ [] := by
      intro h
      rw [h] at hb
      exact hb rfl
    have htoks : ∀ t ∈ cleanToks '_' n, '_' ∉ t := cleanToks_no_sep '_' n
    have hname : newNameAt '_' p true i n =
        p ++ '_' :: (fmt3 i ++ '_' :: pyJoin '_' (cleanToks '_' n)) := by
      simp [newNameAt, hb, pyJoin]
    rw [hname]
    simp only [newNameAt, cleanToks_roundtrip p hns hup i _ htsne htoks]
    simp [hb, pyJoin]

theorem addPfxGo_idem (p : PyStr) (hns : '_' ∉ p) (hup : pyIsupper p = true) :
    ∀ (ns : List PyStr) (i : Nat),
      (addPfxGo '_' p true i ((addPfxGo '_' p true i ns).1)).1 = (addPfxGo '_' p true i ns).1 := by
  intro ns
  induction ns with
  | nil => intro i; rfl
  | cons n ns ih =>
    intro i
    simp [addPfxGo, newNameAt_idem p hns hup i n, ih (i + 1)]

theorem zipRename_map_oid :
    ∀ (objects : List Obj) (ns : List PyStr), objects.length = ns.length →
      (List.zipWith (fun o n => { o with name := n }) objects ns).map Obj.oid =
        objects.map Obj.oid := by
  intro objects
  induction objects with
  | nil => intro ns _; rfl
  | cons o os ih =>
    intro ns h
    cases ns with
    | nil => simp at h
    | cons n ns' =>
      simp only [List.zipWith, List.map]
      rw [ih ns' (by simpa using h)]

theorem zipRename_map_name :
    ∀ (objects : List Obj) (ns : List PyStr), objects.length = ns.length →
      (List.zipWith (fun o n => { o with name := n }) objects ns).map Obj.name = ns := by
  intro objects
  induction objects with
  | nil =>
    intro ns h
    cases ns with
    | nil => rfl
    | cons n ns' => simp at h
  | cons o os ih =>
    intro ns h
    cases ns with
    | nil => simp at h
    | cons n ns' =>
      simp only [List.zipWith, List.map]
      rw [ih ns' (by simpa using h)]

/-! ### Lemmas about the operator state machine -/

theorem ensureObjectMode_eq (env : Env) (st : BState) :
    ensureObjectMode env st =
      (st.objectMode || env.modeSwitchOk,
       { st with objectMode := st.objectMode || env.modeSwitchOk }) := by
  rcases st with ⟨o, s, a, m, d, c⟩
  cases m <;> cases h : env.modeSwitchOk <;> simp [ensureObjectMode, h]

theorem perObjCalls_length (axisKey outDir : PyStr) :
    ∀ (objs : List Obj) (acc : List Nat),
      (perObjCalls axisKey outDir acc objs).length = objs.length := by
  intro objs
  induction objs with
  | nil => intro acc; rfl
  | cons o os ih => intro acc; simp [perObjCalls, ih]

theorem perObjCalls_axis (axisKey outDir : PyStr) :
    ∀ (objs : List Obj) (acc : List Nat), ∀ c ∈ perObjCalls axisKey outDir acc objs,
      c.axis_forward = (enginePreset axisKey).1 ∧ c.axis_up = (enginePreset axisKey).2 := by
  intro objs
  induction objs with
  | nil => intro acc c hc; simp [perObjCalls] at hc
  | cons o os ih =>
    intro acc c hc
    simp only [perObjCalls] at hc
    rcases List.mem_cons.mp hc with rfl | hc
    · exact ⟨rfl, rfl⟩
    · exact ih _ c hc

theorem perObjLoop_ok (env : Env) (axisKey outDir : PyStr) (pS : List Nat) (pA : Option Nat) :
    ∀ (objs : List Obj) (k : Nat) (st : BState),
      (∀ j, env.failAt = some j → j < k ∨ k + objs.length ≤ j) →
      perObjLoop env axisKey outDir pS pA k objs st =
        (true,
         { st with
             selected := pS
             active := pA
             calls := st.calls ++ perObjCalls axisKey outDir st.selected objs }) := by
  intro objs
  induction objs with
  | nil =>
    intro k st _
    simp [perObjLoop, perObjCalls]
  | cons o os ih =>
    intro k st h
    have hne : ¬ env.failAt = some k := by
      intro hk
      rcases h k hk with h' | h'
      · omega
      · simp only [List.length_cons] at h'
        omega
    simp only [perObjLoop, if_neg hne]
    rw [ih (k + 1) _ ?_]
    · rcases st with ⟨ob, s, a, m, d, c⟩
      simp [perObjCalls, List.append_assoc]
    · intro j hj
      rcases h j hj with h' | h'
      · left; omega
      · right
        simp only [List.length_cons] at h'
        omega

theorem perObjLoop_fail (env : Env) (axisKey outDir : PyStr) (pS : List Nat) (pA : Option Nat) :
    ∀ (objs : List Obj) (k j : Nat) (st : BState),
      env.failAt = some j → k ≤ j → j < k + objs.length →
      perObjLoop env axisKey outDir pS pA k objs st =
        (false,
         { st with
             selected := pS
             active := pA
             calls := st.calls ++ (perObjCalls axisKey outDir st.selected objs).take (j - k) }) := by
  intro objs
  induction objs with
  | nil =>
    intro k j st _ hk hj
    simp only [List.length_nil] at hj
    omega
  | cons o os ih =>
    intro k j st hf hk hj
    by_cases hjk : j = k
    · subst hjk
      simp only [perObjLoop, if_pos hf]
      rcases st with ⟨ob, s, a, m, d, c⟩
      simp
    · have hne : ¬ env.failAt = some k := by
        intro hk'
        rw [hf] at hk'
        exact hjk (Option.some.inj hk')
      simp only [perObjLoop, if_neg hne]
      rw [ih (k + 1) j _ hf (by omega) (by simp only [List.length_cons] at hj; omega)]
      rcases st with ⟨ob, s, a, m, d, c⟩
      have htake : j - k = (j - (k + 1)) + 1 := by omega
      simp [perObjCalls, htake, List.append_assoc]

theorem execute_cancel_early (env : Env) (scene : Scene) (st : BState)
    (h : (ensureObjectMode env st).1 = false ∨ env.hasFbx = false ∨
      (pyStartsWith "//".data scene.ta_export_path && env.blendFilepath.isEmpty) = true ∨
      get_selectionFn st.objs st.selected = []) :
    (execute env scene st).1 = .CANCELLED ∧
    (execute env scene st).2.objs = st.objs ∧
    (execute env scene st).2.selected = st.selected ∧
    (execute env scene st).2.active = st.active ∧
    (execute env scene st).2.calls = st.calls := by
  rcases st with ⟨ob, sel, act, m, dirs, cs⟩
  simp only [ensureObjectMode_eq] at h
  simp only [execute, ensureObjectMode_eq]
  by_cases hb : (m || env.modeSwitchOk) = false
  · simp [hb]
  · simp only [Bool.not_eq_false] at hb
    by_cases hf : env.hasFbx = false
    · simp [hb, hf]
    · simp only [Bool.not_eq_false] at hf
      by_cases hp : (pyStartsWith "//".data scene.ta_export_path && env.blendFilepath.isEmpty)
        = true
      · simp [hb, hf, hp]
      · have h4 : get_selectionFn ob sel = [] := by
          rcases h with h | h | h | h
          · simp [hb] at h
          · rw [hf] at h; exact absurd h (by simp)
          · exact absurd h hp
          · simpa using h
        simp [hb, hf, hp, h4]

theorem exportPhase_ok (env : Env) (scene : Scene) (outDir : PyStr) (targets2 : List Obj)
    (st3 : BState)
    (h : ∀ j, env.failAt = some j → (if scene.ta_per_object then targets2.length else 1) ≤ j) :
    exportPhase env scene outDir targets2 st3 =
      (.FINISHED, { st3 with calls := st3.calls ++ phasePlan scene outDir targets2 }) := by
  rcases st3 with ⟨ob, sel, act, m, dirs, cs⟩
  by_cases hper : scene.ta_per_object = true
  · have hcond : ∀ j, env.failAt = some j → j < 0 ∨ 0 + targets2.length ≤ j := by
      intro j hj
      right
      have h' := h j hj
      simp [hper] at h'
      omega
    have heq := perObjLoop_ok env scene.ta_axis_preset outDir sel act targets2 0
      ⟨ob, [], act, m, dirs, cs⟩ hcond
    simp [exportPhase, hper, heq, phasePlan]
  · have h0 : ¬ env.failAt = some 0 := by
      intro hj
      have h' := h 0 hj
      simp [hper] at h'
    simp [exportPhase, hper, phasePlan, h0]

theorem exportPhase_fail (env : Env) (scene : Scene) (outDir : PyStr) (targets2 : List Obj)
    (st3 : BState) (k : Nat)
    (hf : env.failAt = some k)
    (hk : k < (if scene.ta_per_object then targets2.length else 1)) :
    exportPhase env scene outDir targets2 st3 =
      (.CANCELLED,
       { st3 with calls := st3.calls ++ (phasePlan scene outDir targets2).take k }) := by
  rcases st3 with ⟨ob, sel, act, m, dirs, cs⟩
  by_cases hper : scene.ta_per_object = true
  · have hk' : k < targets2.length := by simpa [hper] using hk
    have heq := perObjLoop_fail env scene.ta_axis_preset outDir sel act targets2 0 k
      ⟨ob, [], act, m, dirs, cs⟩ hf (Nat.zero_le k) (by omega)
    simp [exportPhase, hper, heq, phasePlan]
  · have hk0 : k = 0 := by
      have h1 : k < 1 := by simpa [hper] using hk
      omega
    subst hk0
    simp [exportPhase, hper, phasePlan, hf]

theorem execute_phase (env : Env) (scene : Scene) (st : BState)
    (h1 : (ensureObjectMode env st).1 = true)
    (h2 : env.hasFbx = true)
    (h3 : (pyStartsWith "//".data scene.ta_export_path && env.blendFilepath.isEmpty) = false)
    (h4 : get_selectionFn st.objs st.selected ≠ []) :
    execute env scene st =
      exportPhase env scene (get_export_dirS env.blendDir st.madeDirs scene.ta_export_path).2
        (List.zipWith (fun o n => { o with name := n }) (get_selectionFn st.objs st.selected)
          (add_prefixFn '_' scene.ta_pfx scene.ta_add_index
            ((get_selectionFn st.objs st.selected).map Obj.name)).1)
        { objs := renameObjs st.objs ((get_selectionFn st.objs st.selected).map Obj.oid)
            (add_prefixFn '_' scene.ta_pfx scene.ta_add_index
              ((get_selectionFn st.objs st.selected).map Obj.name)).1
          selected := st.selected
          active := st.active
          objectMode := st.objectMode || env.modeSwitchOk
          madeDirs := st.madeDirs ++
            [(get_export_dirS env.blendDir st.madeDirs scene.ta_export_path).2]
          calls := st.calls } := by
  rcases st with ⟨ob, sel, act, m, dirs, cs⟩
  have h1' : (m || env.modeSwitchOk) = true := by
    rw [ensureObjectMode_eq] at h1
    simpa using h1
  simp only [execute, ensureObjectMode_eq]
  simp [h1', h2, h3, h4, get_export_dirS]

theorem bool_eq_true_of_ne_false {b : Bool} (h : ¬ b = false) : b = true := by
  cases b
  · exact absurd rfl h
  · rfl

theorem execute_ok (env : Env) (scene : Scene) (st : BState)
    (h1 : (ensureObjectMode env st).1 = true)
    (h2 : env.hasFbx = true)
    (h3 : (pyStartsWith "//".data scene.ta_export_path && env.blendFilepath.isEmpty) = false)
    (h4 : get_selectionFn st.objs st.selected ≠ [])
    (h5 : ∀ j, env.failAt = some j →
      (if scene.ta_per_object then (get_selectionFn st.objs st.selected).length else 1) ≤ j) :
    execute env scene st = (.FINISHED, finalState env scene st (exportPlan env scene st)) := by
  have hlen : (List.zipWith (fun o n => { o with name := n })
      (get_selectionFn st.objs st.selected)
      (add_prefixFn '_' scene.ta_pfx scene.ta_add_index
        ((get_selectionFn st.objs st.selected).map Obj.name)).1).length =
      (get_selectionFn st.objs st.selected).length := by
    simp [add_prefixFn_fst_length]
  have hcond : ∀ j, env.failAt = some j →
      (if scene.ta_per_object then (List.zipWith (fun o n => { o with name := n })
        (get_selectionFn st.objs st.selected)
        (add_prefixFn '_' scene.ta_pfx scene.ta_add_index
          ((get_selectionFn st.objs st.selected).map Obj.name)).1).length else 1) ≤ j := by
    intro j hj
    rw [hlen]
    exact h5 j hj
  rw [execute_phase env scene st h1 h2 h3 h4, exportPhase_ok env scene _ _ _ hcond]
  rcases st with ⟨ob, sel, act, m, dirs, cs⟩
  simp [finalState, exportPlan, ensureObjectMode_eq]

theorem execute_fail (env : Env) (scene : Scene) (st : BState) (k : Nat)
    (h1 : (ensureObjectMode env st).1 = true)
    (h2 : env.hasFbx = true)
    (h3 : (pyStartsWith "//".data scene.ta_export_path && env.blendFilepath.isEmpty) = false)
    (h4 : get_selectionFn st.objs st.selected ≠ [])
    (hf : env.failAt = some k)
    (hk : k < (if scene.ta_per_object then (get_selectionFn st.objs st.selected).length else 1)) :
    execute env scene st =
      (.CANCELLED, finalState env scene st ((exportPlan env scene st).take k)) := by
  have hlen : (List.zipWith (fun o n => { o with name := n })
      (get_selectionFn st.objs st.selected)
      (add_prefixFn '_' scene.ta_pfx scene.ta_add_index
        ((get_selectionFn st.objs st.selected).map Obj.name)).1).length =
      (get_selectionFn st.objs st.selected).length := by
    simp [add_prefixFn_fst_length]
  have hk' : k < (if scene.ta_per_object then (List.zipWith (fun o n => { o with name := n })
      (get_selectionFn st.objs st.selected)
      (add_prefixFn '_' scene.ta_pfx scene.ta_add_index
        ((get_selectionFn st.objs st.selected).map Obj.name)).1).length else 1) := by
    rw [hlen]
    exact hk
  rw [execute_phase env scene st h1 h2 h3 h4, exportPhase_fail env scene _ _ _ k hf hk']
  rcases st with ⟨ob, sel, act, m, dirs, cs⟩
  simp [finalState, exportPlan, ensureObjectMode_eq]

theorem execute_cases (env : Env) (scene : Scene) (st : BState) :
    ((execute env scene st).1 = .CANCELLED ∧ (execute env scene st).2.objs = st.objs ∧
     (execute env scene st).2.selected = st.selected ∧
     (execute env scene st).2.active = st.active ∧
     (execute env scene st).2.calls = st.calls) ∨
    ∃ nw, (execute env scene st).2 = finalState env scene st nw ∧
      (nw = exportPlan env scene st ∨ ∃ k, nw = (exportPlan env scene st).take k) := by
  by_cases hc : ((ensureObjectMode env st).1 = false ∨ env.hasFbx = false ∨
      (pyStartsWith "//".data scene.ta_export_path && env.blendFilepath.isEmpty) = true ∨
      get_selectionFn st.objs st.selected = [])
  · exact Or.inl (execute_cancel_early env scene st hc)
  · push_neg at hc
    obtain ⟨ha, hb, hp, hd⟩ := hc
    have h1 : (ensureObjectMode env st).1 = true := bool_eq_true_of_ne_false ha
    have h2 : env.hasFbx = true := bool_eq_true_of_ne_false hb
    have h3 : (pyStartsWith "//".data scene.ta_export_path && env.blendFilepath.isEmpty)
        = false := by
      cases hcc : (pyStartsWith "//".data scene.ta_export_path && env.blendFilepath.isEmpty)
      · rfl
      · exact absurd hcc hp
    right
    rcases hfa : env.failAt with _ | k
    · refine ⟨exportPlan env scene st, ?_, Or.inl rfl⟩
      rw [execute_ok env scene st h1 h2 h3 hd (fun j hj => by rw [hfa] at hj; cases hj)]
    · by_cases hk : k <
          (if scene.ta_per_object then (get_selectionFn st.objs st.selected).length else 1)
      · refine ⟨(exportPlan env scene st).take k, ?_, Or.inr ⟨k, rfl⟩⟩
        rw [execute_fail env scene st k h1 h2 h3 hd hfa hk]
      · have hcond : ∀ j, env.failAt = some j →
            (if scene.ta_per_object then (get_selectionFn st.objs st.selected).length else 1)
              ≤ j := by
          intro j hj
          rw [hfa] at hj
          have hjk : j = k := (Option.some.inj hj).symm
          subst hjk
          omega
        refine ⟨exportPlan env scene st, ?_, Or.inl rfl⟩
        rw [execute_ok env scene st h1 h2 h3 hd hcond]

theorem execute_restore (env : Env) (scene : Scene) (st : BState) :
    (execute env scene st).2.selected = st.selected ∧
    (execute env scene st).2.active = st.active := by
  rcases execute_cases env scene st with h | ⟨nw, heq, _⟩
  · exact ⟨h.2.2.1, h.2.2.2.1⟩
  · rw [heq]
    exact ⟨rfl, rfl⟩

theorem phasePlan_axis (scene : Scene) (outDir : PyStr) (targets2 : List Obj) :
    ∀ c ∈ phasePlan scene outDir targets2,
      c.axis_forward = (enginePreset scene.ta_axis_preset).1 ∧
      c.axis_up = (enginePreset scene.ta_axis_preset).2 := by
  intro c hc
  unfold phasePlan at hc
  split at hc
  · exact perObjCalls_axis _ _ _ _ c hc
  · simp only [List.mem_singleton] at hc
    subst hc
    exact ⟨rfl, rfl⟩

theorem exportPlan_axis (env : Env) (scene : Scene) (st : BState) :
    ∀ c ∈ exportPlan env scene st,
      c.axis_forward = (enginePreset scene.ta_axis_preset).1 ∧
      c.axis_up = (enginePreset scene.ta_axis_preset).2 := by
  intro c hc
  exact phasePlan_axis scene _ _ c hc

theorem execute_calls_mono (env : Env) (scene : Scene) (st : BState) :
    ∃ nw, (execute env scene st).2.calls = st.calls ++ nw ∧
      ∀ c ∈ nw, c.axis_forward = (enginePreset scene.ta_axis_preset).1 ∧
        c.axis_up = (enginePreset scene.ta_axis_preset).2 := by
  rcases execute_cases env scene st with h | ⟨nw, heq, hsh⟩
  · exact ⟨[], by simp [h.2.2.2.2], by simp⟩
  · refine ⟨nw, by rw [heq]; simp [finalState], ?_⟩
    intro c hc
    rcases hsh with rfl | ⟨k, rfl⟩
    · exact exportPlan_axis env scene st c hc
    · exact exportPlan_axis env scene st c (List.mem_of_mem_take hc)

theorem exportPlan_length (env : Env) (scene : Scene) (st : BState) :
    (exportPlan env scene st).length =
      (if scene.ta_per_object then (get_selectionFn st.objs st.selected).length else 1) := by
  unfold exportPlan phasePlan
  split
  · rw [perObjCalls_length]
    simp [add_prefixFn_fst_length]
  · rfl

/-! ### The claims -/

/-- C1: rename string rule — for every object processed by
`Utilities.add_prefix` with separator `'_'`, the new name is built by
splitting the old name on `'_'`, dropping the first token if it is
all-uppercase, then dropping the (new) first token if it consists only of
digits, and joining with `'_'`: the prefix with trailing `'_'` stripped, then
(when the index toggle is on) a 3-digit zero-padded 1-based index equal to
the object's position in the input list, then the remaining base name
(omitted when empty); and `add_prefix` returns the number of objects
processed, which equals the length of the input list. -/
theorem C1_rename_rule (pfx : PyStr) (addIndex : Bool) (names : List PyStr) :
    (add_prefixFn '_' pfx addIndex names).1 = claimRenameAll pfx addIndex 1 names ∧
    (add_prefixFn '_' pfx addIndex names).2 = names.length :=
  addPfxGo_claim pfx addIndex names 1

/-- C2, as stated, fails: with one object selected and the per-object toggle
on, `invoke`'s confirmation dialog reports 1 file, yet with the selection and
toggle unchanged `execute` makes 0 calls to the export primitive, because the
host FBX exporter is unavailable and `execute` cancels early. -/
theorem C2_confirm_count_cex :
    invoke ⟨"P".data, false, true, "/tmp".data, [], "UNITY".data⟩
        ⟨[⟨1, "a".data⟩], [1], none, true, [], []⟩ = some 1 ∧
    (execute ⟨true, false, "f".data, "/b".data, none⟩
        ⟨"P".data, false, true, "/tmp".data, [], "UNITY".data⟩
        ⟨[⟨1, "a".data⟩], [1], none, true, [], []⟩).2.calls.length = 0 := by
  decide

/-- C2 (amended): the confirmation dialog reports a file count `N` equal to
the number of selected objects when the per-object toggle is on and to 1
otherwise; and, provided the selection and the per-object toggle are
unchanged between confirmation and execution, the precondition checks pass,
and no export call raises, `execute` makes exactly `N` calls to the host FBX
export primitive and returns FINISHED. -/
theorem C2_confirm_count (env : Env) (scene : Scene) (st : BState) (N : Nat)
    (hinv : invoke scene st = some N) :
    ((scene.ta_per_object = true → N = (selectedObjs st.objs st.selected).length) ∧
     (scene.ta_per_object = false → N = 1)) ∧
    ((ensureObjectMode env st).1 = true → env.hasFbx = true →
     (pyStartsWith "//".data scene.ta_export_path && env.blendFilepath.isEmpty) = false →
     (∀ j, env.failAt = some j → N ≤ j) →
     (execute env scene st).1 = .FINISHED ∧
     (execute env scene st).2.calls.length = st.calls.length + N) := by
  have htg : get_selectionFn st.objs st.selected ≠ [] ∧
      N = (if scene.ta_per_object then (get_selectionFn st.objs st.selected).length else 1) := by
    simp only [invoke] at hinv
    by_cases hne : get_selectionFn st.objs st.selected = []
    · rw [if_pos hne] at hinv
      exact absurd hinv (by simp)
    · rw [if_neg hne] at hinv
      exact ⟨hne, (Option.some.inj hinv).symm⟩
  obtain ⟨hne, hN⟩ := htg
  constructor
  · constructor
    · intro hper
      rw [hN, if_pos hper]
      exact sortLe_length objLe (selectedObjs st.objs st.selected)
    · intro hper
      rw [hN, if_neg (by simp [hper])]
  · intro h1 h2 h3 h5
    have h5' : ∀ j, env.failAt = some j →
        (if scene.ta_per_object then (get_selectionFn st.objs st.selected).length else 1)
          ≤ j := by
      intro j hj
      rw [← hN]
      exact h5 j hj
    rw [execute_ok env scene st h1 h2 h3 hne h5']
    refine ⟨rfl, ?_⟩
    simp only [finalState, List.length_append]
    rw [exportPlan_length, ← hN]

/-- C2 witness: one selected object, per-object toggle on, all precondition
checks passing and no injected failure — the dialog reports 1 file and
`execute` finishes having made exactly one export call. -/
theorem C2_confirm_count_witness :
    invoke ⟨"P".data, false, true, "/tmp".data, [], "UNITY".data⟩
        ⟨[⟨1, "a".data⟩], [1], none, true, [], []⟩ = some 1 ∧
    ((execute ⟨true, true, "f".data, "/b".data, none⟩
        ⟨"P".data, false, true, "/tmp".data, [], "UNITY".data⟩
        ⟨[⟨1, "a".data⟩], [1], none, true, [], []⟩).1 = .FINISHED ∧
     (execute ⟨true, true, "f".data, "/b".data, none⟩
        ⟨"P".data, false, true, "/tmp".data, [], "UNITY".data⟩
        ⟨[⟨1, "a".data⟩], [1], none, true, [], []⟩).2.calls.length = 1) :=
  ⟨by decide,
   (C2_confirm_count ⟨true, true, "f".data, "/b".data, none⟩
     ⟨"P".data, false, true, "/tmp".data, [], "UNITY".data⟩
     ⟨[⟨1, "a".data⟩], [1], none, true, [], []⟩ 1 (by decide)).2
     (by decide) (by decide) (by decide) (fun _ hj => Option.noConfusion hj)⟩

/-- C3 (documenting the code bug): with objects 1 (named "a") and 2 (named
"b") both selected, per-object toggle on, prefix "P", index off and export
path "/tmp", `execute` finishes and makes two export calls whose output paths
are `out_dir/<renamed>.fbx` as claimed, but whose selections are `[1]` and
`[1, 2]`: the second call does not have exactly the second object selected,
because `SelectionGuard.set` only ever selects and nothing deselects the
previous iteration's object before the next call. -/
theorem C3_per_object_selection :
    (execute ⟨true, true, "f".data, "/b".data, none⟩
        ⟨"P".data, false, true, "/tmp".data, [], "UNITY".data⟩
        ⟨[⟨1, "a".data⟩, ⟨2, "b".data⟩], [1, 2], none, true, [], []⟩).1 = .FINISHED ∧
    (execute ⟨true, true, "f".data, "/b".data, none⟩
        ⟨"P".data, false, true, "/tmp".data, [], "UNITY".data⟩
        ⟨[⟨1, "a".data⟩, ⟨2, "b".data⟩], [1, 2], none, true, [], []⟩).2.calls.map
      ExportCall.filepath = ["/tmp/P_a.fbx".data, "/tmp/P_b.fbx".data] ∧
    (execute ⟨true, true, "f".data, "/b".data, none⟩
        ⟨"P".data, false, true, "/tmp".data, [], "UNITY".data⟩
        ⟨[⟨1, "a".data⟩, ⟨2, "b".data⟩], [1, 2], none, true, [], []⟩).2.calls.map
      ExportCall.selection = [[1], [1, 2]] := by
  decide

/-- C4: selection save/restore — for every environment (including those that
make a host export call raise `RuntimeError` mid-run), the selected objects
and the active object after `execute` equal those at the moment the
`SelectionGuard` was constructed; the operator leaves the user's selection
state unchanged. -/
theorem C4_selection_preserved (env : Env) (scene : Scene) (st : BState) :
    (execute env scene st).2.selected = st.selected ∧
    (execute env scene st).2.active = st.active :=
  execute_restore env scene st

/-- C5, as stated, fails: neither operation is pure — `Utilities.add_prefix`
mutates the names of the objects it processes (its return value is only a
count), and `Utilities.get_export_dir` creates the export directory on the
filesystem (`os.makedirs`). -/
theorem C5_purity_cex :
    (add_prefixS "SM_".data true [⟨1, "Cube".data⟩]).1 ≠ [⟨1, "Cube".data⟩] ∧
    (get_export_dirS "/b/".data [] "x".data).1 ≠ ([] : List PyStr) := by
  decide

/-- C5 (amended): both operations are deterministic functions of their
inputs, but each has exactly one effect beyond its return value —
`get_export_dir` appends exactly one created directory (the returned absolute
path) to the filesystem state, and `add_prefix` rewrites exactly the names of
the processed objects according to the rename rule (object identities are
preserved) while returning the count of objects processed. -/
theorem C5_deterministic_effects (blendDir : PyStr) (fs : List PyStr) (p : PyStr) :
    get_export_dirS blendDir fs p =
      (fs ++ [bpyAbspath blendDir (if p = [] then "//".data else p)],
       bpyAbspath blendDir (if p = [] then "//".data else p)) ∧
    ∀ (pfx : PyStr) (ai : Bool) (objects : List Obj),
      (add_prefixS pfx ai objects).1.map Obj.oid = objects.map Obj.oid ∧
      (add_prefixS pfx ai objects).1.map Obj.name =
        (add_prefixFn '_' pfx ai (objects.map Obj.name)).1 ∧
      (add_prefixS pfx ai objects).2 = objects.length := by
  constructor
  · rfl
  · intro pfx ai objects
    refine ⟨?_, ?_, ?_⟩
    · exact zipRename_map_oid objects _ (by simp [add_prefixFn_fst_length])
    · exact zipRename_map_name objects _ (by simp [add_prefixFn_fst_length])
    · simpa [add_prefixS] using add_prefixFn_snd '_' pfx ai (objects.map Obj.name)

/-- C6, as stated, fails: the objects named "SM\x5f" and "XY\x5fSM\x5f" have
equal sort keys, so Python's stable sort keeps them in host-selection order;
running the selection-sort plus rename pipeline on the two selection orders
of the same multiset of names assigns the indices differently and produces
different resulting names. -/
theorem C6_order_dependence_cex :
    (selectedObjs [⟨1, "SM_".data⟩, ⟨2, "XY_SM_".data⟩] [1, 2]).Perm
      (selectedObjs [⟨1, "SM_".data⟩, ⟨2, "XY_SM_".data⟩] [2, 1]) ∧
    renamePipeline "P".data true [⟨1, "SM_".data⟩, ⟨2, "XY_SM_".data⟩] [1, 2] ≠
      renamePipeline "P".data true [⟨1, "SM_".data⟩, ⟨2, "XY_SM_".data⟩] [2, 1] := by
  decide

/-- C6 (amended): the pipeline is a function of its inputs, and whenever the
`get_selection` sort key is injective on the selected objects (no two
distinct selected objects share a key), the sorted order — and hence every
assigned index and resulting name — does not depend on the order in which the
host reports the selection. -/
theorem C6_sort_determinism (objs : List Obj) (sel1 sel2 : List Nat) (pfx : PyStr) (ai : Bool)
    (hperm : (selectedObjs objs sel1).Perm (selectedObjs objs sel2))
    (hinj : ∀ a ∈ selectedObjs objs sel1, ∀ b ∈ selectedObjs objs sel1,
      keyOf a.name = keyOf b.name → a = b) :
    renamePipeline pfx ai objs sel1 = renamePipeline pfx ai objs sel2 := by
  have hsort : get_selectionFn objs sel1 = get_selectionFn objs sel2 := by
    apply sorted_perm_eq objLe
    · exact ((perm_sortLe objLe _).trans hperm).trans (perm_sortLe objLe _).symm
    · exact pairwise_sortLe objLe objLe_total objLe_trans _
    · exact pairwise_sortLe objLe objLe_total objLe_trans _
    · intro a ha b hb hab hba
      have ha' : a ∈ selectedObjs objs sel1 := (perm_sortLe objLe _).subset ha
      have hb' : b ∈ selectedObjs objs sel1 := (perm_sortLe objLe _).subset hb
      exact hinj a ha' b hb' (objLe_antisymm_key a b hab hba)
  unfold renamePipeline
  rw [hsort]

/-- C6 witness: a concrete selection with injective keys where both selection
orders produce the same renamed names. -/
theorem C6_sort_determinism_witness :
    (selectedObjs [⟨1, "a".data⟩, ⟨2, "b".data⟩] [1, 2]).Perm
      (selectedObjs [⟨1, "a".data⟩, ⟨2, "b".data⟩] [2, 1]) ∧
    renamePipeline "P".data true [⟨1, "a".data⟩, ⟨2, "b".data⟩] [1, 2] =
      renamePipeline "P".data true [⟨1, "a".data⟩, ⟨2, "b".data⟩] [2, 1] :=
  ⟨by decide,
   C6_sort_determinism [⟨1, "a".data⟩, ⟨2, "b".data⟩] [1, 2] [2, 1] "P".data true
     (by decide) (by decide)⟩

/-- C7: every export call made by `execute` uses the chosen axis preset, and
`ENGINE_AXIS_PRESETS` maps BLENDER to -Y/Z, MAYA to Z/Y, UNITY to -Z/Y and
UNREAL to X/Z, with every other key falling back to the BLENDER pair. -/
theorem C7_axis_presets :
    enginePreset "BLENDER".data = ("-Y".data, "Z".data) ∧
    enginePreset "MAYA".data = ("Z".data, "Y".data) ∧
    enginePreset "UNITY".data = ("-Z".data, "Y".data) ∧
    enginePreset "UNREAL".data = ("X".data, "Z".data) ∧
    (∀ k : PyStr, k ≠ "BLENDER".data → k ≠ "MAYA".data → k ≠ "UNITY".data →
      k ≠ "UNREAL".data → enginePreset k = ("-Y".data, "Z".data)) ∧
    (∀ (env : Env) (scene : Scene) (st : BState), ∀ c ∈ (execute env scene st).2.calls,
      c ∈ st.calls ∨ (c.axis_forward = (enginePreset scene.ta_axis_preset).1 ∧
        c.axis_up = (enginePreset scene.ta_axis_preset).2)) := by
  refine ⟨by decide, by decide, by decide, by decide, ?_, ?_⟩
  · intro k h1 h2 h3 h4
    simp [enginePreset, h1, h2, h3, h4]
  · intro env scene st c hc
    obtain ⟨nw, hcalls, hax⟩ := execute_calls_mono env scene st
    rw [hcalls] at hc
    rcases List.mem_append.mp hc with h | h
    · exact Or.inl h
    · exact Or.inr (hax c h)

/-- C7 witness: the fallback pair at a key outside the preset table, and the
trace clause at a concrete early-cancelling run whose pre-existing call trace
is preserved. -/
theorem C7_axis_presets_witness :
    enginePreset "GODOT".data = ("-Y".data, "Z".data) ∧
    ((⟨"q".data, [3], "A".data, "B".data⟩ : ExportCall) ∈
        (⟨[], [], none, true, [], [⟨"q".data, [3], "A".data, "B".data⟩]⟩ : BState).calls ∨
      ((⟨"q".data, [3], "A".data, "B".data⟩ : ExportCall).axis_forward =
          (enginePreset "UNITY".data).1 ∧
        (⟨"q".data, [3], "A".data, "B".data⟩ : ExportCall).axis_up =
          (enginePreset "UNITY".data).2)) :=
  ⟨C7_axis_presets.2.2.2.2.1 "GODOT".data (by decide) (by decide) (by decide) (by decide),
   C7_axis_presets.2.2.2.2.2 ⟨true, false, "f".data, "/b".data, none⟩
     ⟨"P".data, false, true, "/tmp".data, [], "UNITY".data⟩
     ⟨[], [], none, true, [], [⟨"q".data, [3], "A".data, "B".data⟩]⟩
     ⟨"q".data, [3], "A".data, "B".data⟩ (by decide)⟩

/-- C8: early-cancel atomicity — whenever one of the four precondition checks
of `execute` fails (OBJECT mode cannot be ensured, the FBX exporter is
unavailable, the export path starts with `//` while the project file is
unsaved, or the selection is empty), `execute` returns CANCELLED, no object
name is changed, and no export call is made. -/
theorem C8_early_cancel (env : Env) (scene : Scene) (st : BState)
    (h : (ensureObjectMode env st).1 = false ∨ env.hasFbx = false ∨
      (pyStartsWith "//".data scene.ta_export_path && env.blendFilepath.isEmpty) = true ∨
      get_selectionFn st.objs st.selected = []) :
    (execute env scene st).1 = .CANCELLED ∧
    (execute env scene st).2.objs = st.objs ∧
    (execute env scene st).2.calls = st.calls := by
  obtain ⟨a, b, _, _, e⟩ := execute_cancel_early env scene st h
  exact ⟨a, b, e⟩

/-- C8 witness: a concrete run with the FBX exporter unavailable. -/
theorem C8_early_cancel_witness :
    ((ensureObjectMode ⟨true, false, "f".data, "/b".data, none⟩
        ⟨[⟨1, "a".data⟩], [1], none, true, [], []⟩).1 = false ∨
      (⟨true, false, "f".data, "/b".data, none⟩ : Env).hasFbx = false ∨
      (pyStartsWith "//".data
          (⟨"P".data, false, true, "/tmp".data, [], "UNITY".data⟩ : Scene).ta_export_path &&
        (⟨true, false, "f".data, "/b".data, none⟩ : Env).blendFilepath.isEmpty) = true ∨
      get_selectionFn [⟨1, "a".data⟩] [1] = []) ∧
    ((execute ⟨true, false, "f".data, "/b".data, none⟩
        ⟨"P".data, false, true, "/tmp".data, [], "UNITY".data⟩
        ⟨[⟨1, "a".data⟩], [1], none, true, [], []⟩).1 = .CANCELLED ∧
     (execute ⟨true, false, "f".data, "/b".data, none⟩
        ⟨"P".data, false, true, "/tmp".data, [], "UNITY".data⟩
        ⟨[⟨1, "a".data⟩], [1], none, true, [], []⟩).2.objs = [⟨1, "a".data⟩] ∧
     (execute ⟨true, false, "f".data, "/b".data, none⟩
        ⟨"P".data, false, true, "/tmp".data, [], "UNITY".data⟩
        ⟨[⟨1, "a".data⟩], [1], none, true, [], []⟩).2.calls = []) :=
  ⟨by decide,
   C8_early_cancel ⟨true, false, "f".data, "/b".data, none⟩
     ⟨"P".data, false, true, "/tmp".data, [], "UNITY".data⟩
     ⟨[⟨1, "a".data⟩], [1], none, true, [], []⟩ (by decide)⟩

/-- C9: no rollback of renames on export failure — when the precondition
checks pass and the host export primitive raises `RuntimeError` at call `k`
(before all planned calls completed), `execute` returns CANCELLED with the
selection and active object restored, yet every rename stays applied (the
scene objects carry the fully renamed names) and the calls completed before
the failure remain in the trace. -/
theorem C9_no_rollback (env : Env) (scene : Scene) (st : BState) (k : Nat)
    (h1 : (ensureObjectMode env st).1 = true)
    (h2 : env.hasFbx = true)
    (h3 : (pyStartsWith "//".data scene.ta_export_path && env.blendFilepath.isEmpty) = false)
    (h4 : get_selectionFn st.objs st.selected ≠ [])
    (hf : env.failAt = some k)
    (hk : k < (if scene.ta_per_object then (get_selectionFn st.objs st.selected).length else 1)) :
    (execute env scene st).1 = .CANCELLED ∧
    (execute env scene st).2.selected = st.selected ∧
    (execute env scene st).2.active = st.active ∧
    (execute env scene st).2.objs =
      renameObjs st.objs ((get_selectionFn st.objs st.selected).map Obj.oid)
        (add_prefixFn '_' scene.ta_pfx scene.ta_add_index
          ((get_selectionFn st.objs st.selected).map Obj.name)).1 ∧
    (execute env scene st).2.calls = st.calls ++ (exportPlan env scene st).take k := by
  rw [execute_fail env scene st k h1 h2 h3 h4 hf hk]
  exact ⟨rfl, rfl, rfl, rfl, rfl⟩

/-- C9 witness: two objects, per-object mode, the second export call raises;
the first file stays exported, both renames stay applied, the selection is
restored, and `execute` cancels. -/
theorem C9_no_rollback_witness :
    (execute ⟨true, true, "f".data, "/b".data, some 1⟩
        ⟨"P".data, false, true, "/tmp".data, [], "UNITY".data⟩
        ⟨[⟨1, "a".data⟩, ⟨2, "b".data⟩], [1, 2], none, true, [], []⟩).1 = .CANCELLED ∧
    (execute ⟨true, true, "f".data, "/b".data, some 1⟩
        ⟨"P".data, false, true, "/tmp".data, [], "UNITY".data⟩
        ⟨[⟨1, "a".data⟩, ⟨2, "b".data⟩], [1, 2], none, true, [], []⟩).2.selected = [1, 2] ∧
    (execute ⟨true, true, "f".data, "/b".data, some 1⟩
        ⟨"P".data, false, true, "/tmp".data, [], "UNITY".data⟩
        ⟨[⟨1, "a".data⟩, ⟨2, "b".data⟩], [1, 2], none, true, [], []⟩).2.active = none ∧
    (execute ⟨true, true, "f".data, "/b".data, some 1⟩
        ⟨"P".data, false, true, "/tmp".data, [], "UNITY".data⟩
        ⟨[⟨1, "a".data⟩, ⟨2, "b".data⟩], [1, 2], none, true, [], []⟩).2.objs =
      [⟨1, "P_a".data⟩, ⟨2, "P_b".data⟩] ∧
    (execute ⟨true, true, "f".data, "/b".data, some 1⟩
        ⟨"P".data, false, true, "/tmp".data, [], "UNITY".data⟩
        ⟨[⟨1, "a".data⟩, ⟨2, "b".data⟩], [1, 2], none, true, [], []⟩).2.calls =
      [⟨"/tmp/P_a.fbx".data, [1], "-Z".data, "Y".data⟩] :=
  C9_no_rollback ⟨true, true, "f".data, "/b".data, some 1⟩
    ⟨"P".data, false, true, "/tmp".data, [], "UNITY".data⟩
    ⟨[⟨1, "a".data⟩, ⟨2, "b".data⟩], [1, 2], none, true, [], []⟩ 1
    (by decide) (by decide) (by decide) (by decide) (by decide) (by decide)

/-- C10, as stated, fails: the prefix "P" satisfies the shape condition
(single token, no `'_'`, accepted by the uppercase check), yet with the index
toggle off a second application of `add_prefix` changes the name
"001\x5f002\x5fx" again (the cleaned base starts with an all-digits token,
which the second pass strips). -/
theorem C10_idempotence_cex :
    pfxShape "P".data = true ∧
    (add_prefixFn '_' "P".data false
      ((add_prefixFn '_' "P".data false ["001_002_x".data]).1)).1 ≠
      (add_prefixFn '_' "P".data false ["001_002_x".data]).1 := by
  decide

/-- C10 (amended): for a prefix whose stripped form is a single `'_'`-free
token accepted by the uppercase check, a second application of `add_prefix`
with the same prefix is the identity whenever the index toggle is on; with
the toggle off idempotence can fail (see the counterexample), and a prefix
not of this shape keeps prepending, as witnessed by "pf". -/
theorem C10_idempotent_with_index :
    (∀ (pfx : PyStr) (names : List PyStr), pfxShape pfx = true →
      (add_prefixFn '_' pfx true ((add_prefixFn '_' pfx true names).1)).1 =
        (add_prefixFn '_' pfx true names).1) ∧
    (add_prefixFn '_' "pf".data false
      ((add_prefixFn '_' "pf".data false ["x".data]).1)).1 ≠
      (add_prefixFn '_' "pf".data false ["x".data]).1 := by
  constructor
  · intro pfx names hshape
    have hparts := Bool.and_eq_true _ _ |>.mp hshape
    have hns : '_' ∉ pyRstrip '_' pfx := by
      intro hmem
      have hall := hparts.1
      rw [List.all_eq_true] at hall
      have h2 := hall '_' hmem
      simp at h2
    exact addPfxGo_idem (pyRstrip '_' pfx) hns hparts.2 names 1
  · decide

/-- C10 witness: the default prefix "SM\x5f" has the required shape and the
rename with index on is idempotent on a concrete object list. -/
theorem C10_idempotent_with_index_witness :
    pfxShape "SM_".data = true ∧
    (add_prefixFn '_' "SM_".data true
      ((add_prefixFn '_' "SM_".data true ["Cube".data]).1)).1 =
      (add_prefixFn '_' "SM_".data true ["Cube".data]).1 :=
  ⟨by decide, C10_idempotent_with_index.1 "SM_".data ["Cube".data] (by decide)⟩

end BatchFBX
